import Mathlib

/-!
Shallow embedding of the elementary-cellular-automaton engine (`Automata`
class: `setRule`, `reset`, `run`) and the pattern analyzer (`analyzeRule`
with `isClass1`, `isClass2` and the four symmetry checks), translated from
the TypeScript source.

The grid is a `Uint8Array` of length `width * height` in the source,
addressed flat as `row * width + col`; we model it as a total function
`Nat → Nat` where a store truncates the written value modulo 256
(`Uint8Array` element semantics).  Claims only observe in-bounds indices.

JavaScript number/bit-operation semantics used by the source:
`a >> b` converts `a` with ToInt32, shifts arithmetically by `b & 31`
(arithmetic right shift is floor division by a power of two), and `x & 1`
is the low bit, i.e. `x` modulo 2 in two's complement.
-/

/-- ToInt32: wrap an integer into [-2^31, 2^31). -/
def toInt32 (n : Int) : Int := (n + 2 ^ 31) % 2 ^ 32 - 2 ^ 31

/-- JavaScript `a >> k` for a nonnegative shift count: ToInt32 the left
operand, reduce the count mod 32, arithmetic shift = floor division. -/
def jsShr (a : Int) (k : Nat) : Int := Int.fdiv (toInt32 a) (2 ^ (k % 32))

/-- JavaScript `x & 1`: the low bit of the two's-complement value,
which is `x` modulo 2 (Euclidean remainder, always 0 or 1). -/
def jsAnd1 (a : Int) : Nat := (a % 2).toNat

/-- Flat grid buffer: index `row * width + col ↦ cell value`. -/
abbrev Grid := Nat → Nat

/-- `g[i] = v` on a `Uint8Array`: the stored byte is `v % 256`. -/
def store (g : Grid) (i v : Nat) : Grid := fun j => if j = i then v % 256 else g j

/-- The transition computed in the inner loop of `Automata.run` for cell
`(y, x)`, `y ≥ 1`: reads `left`, `center`, `right` from row `y - 1` with
toroidal horizontal wrap, forms `pattern = (left << 2) | (center << 1) | right`
and returns `(rule >> pattern) & 1`.  The source's `(x - 1 + width) % width`
is written `(x + width - 1) % width`, the same value for natural `x`
(avoiding truncated subtraction at `x = 0`). -/
def nextState (rule : Int) (w : Nat) (g : Grid) (y x : Nat) : Nat :=
  let left := g ((y - 1) * w + (x + w - 1) % w)
  let center := g ((y - 1) * w + x)
  let right := g ((y - 1) * w + (x + 1) % w)
  let pattern := (left <<< 2) ||| (center <<< 1) ||| right
  jsAnd1 (jsShr rule pattern)

/-- The inner `for x` loop of `Automata.run`, generalized over the list of
column indices it visits (the source visits `List.range w`): sequentially
stores `nextState` into `grid[y * w + x]` for each `x`. -/
def writeRow (rule : Int) (w y : Nat) (cols : List Nat) (g : Grid) : Grid :=
  cols.foldl (fun g x => store g (y * w + x) (nextState rule w g y x)) g

/-- One iteration of the outer `for y` loop of `Automata.run`: fill row `y`
from row `y - 1`, columns `0 .. w-1` in order. -/
def runRow (rule : Int) (w y : Nat) (g : Grid) : Grid :=
  writeRow rule w y (List.range w) g

/-- The outer `for y` loop of `Automata.run`, generalized over the list of
row indices it visits (the source visits `1, 2, …, height - 1`). -/
def runRows (rule : Int) (w : Nat) (rows : List Nat) (g : Grid) : Grid :=
  rows.foldl (fun g y => runRow rule w y g) g

/-- The `Automata` class: `width`, `height`, `rule`, flat `grid`. -/
structure Automata where
  width : Nat
  height : Nat
  rule : Int
  grid : Grid

namespace Automata

/-- `setRule(rule) { this.rule = rule; }` -/
def setRule (a : Automata) (r : Int) : Automata := { a with rule := r }

/-- `reset()`: `grid.fill(0)`, then `grid[Math.floor(width / 2)] = 1`
(single seed in row 0). -/
def reset (a : Automata) : Automata :=
  { a with grid := store (fun _ => 0) (a.width / 2) 1 }

/-- `run()`: for `y` from 1 to `height - 1`, fill row `y` from row `y - 1`. -/
def run (a : Automata) : Automata :=
  { a with grid := runRows a.rule a.width (List.range' 1 (a.height - 1)) a.grid }

end Automata

/-- The constructor `new Automata(width, height)`: rule 0, fresh zero
buffer, then `this.reset()`. -/
def mkAutomata (w h : Nat) : Automata :=
  Automata.reset { width := w, height := h, rule := 0, grid := fun _ => 0 }

/-! ## The analyzer -/

/-- `AnalysisResult` interface. -/
structure AnalysisResult where
  wolframClass : String
  description : String
  symmetries : List String

/-- `CLASS_4_RULES = new Set([110, 124, 137, 147, 193, 54])`. -/
def CLASS_4_RULES : List Int := [110, 124, 137, 147, 193, 54]

/-- `isClass1`: the last row is uniform — every later cell of row
`height - 1` equals its first cell (`x` runs over `1 .. width - 1`). -/
def isClass1 (g : Grid) (w h : Nat) : Bool :=
  (List.range' 1 (w - 1)).all fun x => g ((h - 1) * w + x) == g ((h - 1) * w)

/-- `isClass2`: some `k` in `1 .. min 50 (height - 1)` has row `height - 1`
identical to row `height - 1 - k`. -/
def isClass2 (g : Grid) (w h : Nat) : Bool :=
  (List.range' 1 (min 50 (h - 1))).any fun k =>
    (List.range w).all fun x => g ((h - 1) * w + x) == g ((h - 1 - k) * w + x)

/-- `checkVerticalSymmetry`: for every row `y`, for every `x < width / 2`
(real division in the source: `x` runs over `0 .. (w+1)/2 - 1`, since
`x < w / 2` over the reals iff `x < (w + 1) / 2` in `Nat`),
`grid[y][x] == grid[y][width - 1 - x]`. -/
def checkVerticalSymmetry (g : Grid) (w h : Nat) : Bool :=
  (List.range h).all fun y =>
    (List.range ((w + 1) / 2)).all fun x =>
      g (y * w + x) == g (y * w + (w - 1 - x))

/-- `checkHorizontalSymmetry`: for every `y < height / 2` (real division:
`y` runs over `0 .. (h+1)/2 - 1`), row `y` equals row `height - 1 - y`. -/
def checkHorizontalSymmetry (g : Grid) (w h : Nat) : Bool :=
  (List.range ((h + 1) / 2)).all fun y =>
    (List.range w).all fun x =>
      g (y * w + x) == g ((h - 1 - y) * w + x)

/-- `checkDiagonalSymmetry` (square grids): `A[y][x] == A[x][y]` for the
lower triangle `x < y`. -/
def checkDiagonalSymmetry (g : Grid) (size : Nat) : Bool :=
  (List.range size).all fun y =>
    (List.range y).all fun x => g (y * size + x) == g (x * size + y)

/-- `checkAntiDiagonalSymmetry` (square grids):
`A[y][x] == A[size-1-x][size-1-y]` for `x < size - 1 - y`. -/
def checkAntiDiagonalSymmetry (g : Grid) (size : Nat) : Bool :=
  (List.range size).all fun y =>
    (List.range (size - 1 - y)).all fun x =>
      g (y * size + x) == g ((size - 1 - x) * size + (size - 1 - y))

/-- The class label chosen by `analyzeRule` (first match wins: static
Class-4 lookup, then `isClass1`, then `isClass2`, default Class 3). -/
def wolframClassOf (rule : Int) (g : Grid) (w h : Nat) : String :=
  if CLASS_4_RULES.contains rule then "Class 4 (Complex)"
  else if isClass1 g w h then "Class 1 (Uniform)"
  else if isClass2 g w h then "Class 2 (Periodic/Stable)"
  else "Class 3 (Chaotic/Aperiodic)"

/-- The description string set alongside the class label. -/
def descriptionOf (rule : Int) (g : Grid) (w h : Nat) : String :=
  if CLASS_4_RULES.contains rule then
    "Complex, localized structures, potential for universal computation."
  else if isClass1 g w h then "Evolves to a homogenous state."
  else if isClass2 g w h then "Evolves to simple separated periodic structures."
  else "Chaotic, random-like patterns."

/-- The labels pushed by the symmetry section of `analyzeRule`, in source
order; the diagonal pair is only considered when `width === height`. -/
def rawSymmetries (g : Grid) (w h : Nat) : List String :=
  (if checkVerticalSymmetry g w h then ["Vertical (Left-Right)"] else []) ++
  (if checkHorizontalSymmetry g w h then ["Horizontal (Top-Bottom)"] else []) ++
  (if w == h then
    (if checkDiagonalSymmetry g w then ["Diagonal (TL-BR)"] else []) ++
    (if checkAntiDiagonalSymmetry g w then ["Anti-Diagonal (TR-BL)"] else [])
  else [])

/-- Final symmetry list: `if (symmetries.length === 0) symmetries.push("None")`. -/
def symmetriesOf (g : Grid) (w h : Nat) : List String :=
  let raw := rawSymmetries g w h
  if raw.isEmpty then ["None"] else raw

/-- `analyzeRule(rule, automata)`. -/
def analyzeRule (rule : Int) (a : Automata) : AnalysisResult :=
  { wolframClass := wolframClassOf rule a.grid a.width a.height
    description := descriptionOf rule a.grid a.width a.height
    symmetries := symmetriesOf a.grid a.width a.height }

/-! ## Operation sequences (for the cell-range invariant) -/

/-- One externally callable mutating operation of the engine. -/
inductive Op where
  | setRule (r : Int)
  | reset
  | run

/-- Apply one operation. -/
def applyOp (a : Automata) : Op → Automata
  | Op.setRule r => a.setRule r
  | Op.reset => a.reset
  | Op.run => a.run

/-- Apply a sequence of operations left to right. -/
def runOps (a : Automata) (ops : List Op) : Automata := ops.foldl applyOp a

/-! ## Basic lemmas about the transition -/

theorem jsAnd1_le_one (a : Int) : jsAnd1 a ≤ 1 := by
  unfold jsAnd1
  have h0 : 0 ≤ a % 2 := Int.emod_nonneg a (by norm_num)
  have h1 : a % 2 < 2 := Int.emod_lt_of_pos a (by norm_num)
  omega

theorem nextState_le_one (r : Int) (w : Nat) (g : Grid) (y x : Nat) :
    nextState r w g y x ≤ 1 := jsAnd1_le_one _

theorem nextState_zero_rule (w : Nat) (g : Grid) (y x : Nat) :
    nextState 0 w g y x = 0 := by
  show jsAnd1 (jsShr 0 _) = 0
  unfold jsAnd1 jsShr toInt32
  norm_num

/-- `nextState` only reads the three row-`y-1` cells. -/
theorem nextState_congr (r : Int) (w : Nat) (g1 g2 : Grid) (y x : Nat)
    (hw : 0 < w) (hx : x < w)
    (h : ∀ c < w, g1 ((y - 1) * w + c) = g2 ((y - 1) * w + c)) :
    nextState r w g1 y x = nextState r w g2 y x := by
  unfold nextState
  rw [h _ (Nat.mod_lt _ hw), h _ hx, h _ (Nat.mod_lt _ hw)]

theorem store_self (g : Grid) (i v : Nat) : store g i v i = v % 256 := by
  simp [store]

theorem store_other (g : Grid) (i v j : Nat) (h : j ≠ i) : store g i v j = g j := by
  simp [store, h]

/-! ## Lemmas about the inner column loop -/

theorem writeRow_nil (r : Int) (w y : Nat) (g : Grid) :
    writeRow r w y [] g = g := rfl

theorem writeRow_cons (r : Int) (w y c : Nat) (cs : List Nat) (g : Grid) :
    writeRow r w y (c :: cs) g =
      writeRow r w y cs (store g (y * w + c) (nextState r w g y c)) := rfl

/-- Cells at indices not written by the column loop are unchanged. -/
theorem writeRow_frame (r : Int) (w y : Nat) (cols : List Nat) (g : Grid)
    (j : Nat) (h : ∀ x ∈ cols, j ≠ y * w + x) :
    writeRow r w y cols g j = g j := by
  induction cols generalizing g with
  | nil => rfl
  | cons c cs ih =>
    rw [writeRow_cons, ih _ fun x hx => h x (List.mem_cons_of_mem _ hx)]
    exact store_other _ _ _ _ (h c (List.mem_cons_self _ _))

/-- The column loop never touches row `y - 1` (for `y ≥ 1`), so the
values `nextState` reads are those of the grid the loop started from:
the written cell `(y, x)` holds `nextState` of the original grid. -/
theorem writeRow_get (r : Int) (w y : Nat) (hw : 0 < w) (hy : 1 ≤ y)
    (cols : List Nat) (g : Grid) (hcols : ∀ x ∈ cols, x < w)
    (hnd : cols.Nodup) (x : Nat) (hx : x ∈ cols) :
    writeRow r w y cols g (y * w + x) = nextState r w g y x := by
  induction cols generalizing g with
  | nil => cases hx
  | cons c cs ih =>
    rw [writeRow_cons]
    rcases List.nodup_cons.1 hnd with ⟨hcn, hnd'⟩
    by_cases hxc : x = c
    · subst hxc
      rw [writeRow_frame _ _ _ _ _ _ fun x' hx' hj => by
        exact hcn (by have := Nat.add_left_cancel hj; rw [this]; exact hx')]
      rw [store_self, Nat.mod_eq_of_lt (lt_of_le_of_lt (nextState_le_one r w g y x) (by norm_num))]
    · have hx' : x ∈ cs := (List.mem_cons.1 hx).resolve_left hxc
      rw [ih _ (fun z hz => hcols z (List.mem_cons_of_mem _ hz)) hnd' hx']
      refine nextState_congr r w _ g y x hw (hcols x hx) fun c' hc' => ?_
      refine store_other _ _ _ _ (Nat.ne_of_lt ?_)
      have h1 : (y - 1) * w + c' < (y - 1) * w + w := by omega
      have h2 : (y - 1) * w + w = y * w := by
        have : y - 1 + 1 = y := by omega
        calc (y - 1) * w + w = (y - 1 + 1) * w := by ring
          _ = y * w := by rw [this]
      omega

/-! ## Lemmas about one row iteration -/

theorem runRow_frame (r : Int) (w y : Nat) (g : Grid) (j : Nat)
    (h : ¬(y * w ≤ j ∧ j < y * w + w)) : runRow r w y g j = g j := by
  refine writeRow_frame _ _ _ _ _ _ fun x hx hj => h ?_
  have hxw := List.mem_range.1 hx
  omega

theorem runRow_get (r : Int) (w y : Nat) (hw : 0 < w) (hy : 1 ≤ y)
    (g : Grid) (x : Nat) (hx : x < w) :
    runRow r w y g (y * w + x) = nextState r w g y x :=
  writeRow_get r w y hw hy _ g (fun _ hz => List.mem_range.1 hz)
    (List.nodup_range w) x (List.mem_range.2 hx)

/-! ## Lemmas about the outer row loop -/

theorem runRows_nil (r : Int) (w : Nat) (g : Grid) : runRows r w [] g = g := rfl

theorem runRows_cons (r : Int) (w y : Nat) (rows : List Nat) (g : Grid) :
    runRows r w (y :: rows) g = runRows r w rows (runRow r w y g) := rfl

theorem runRows_append (r : Int) (w : Nat) (l1 l2 : List Nat) (g : Grid) :
    runRows r w (l1 ++ l2) g = runRows r w l2 (runRows r w l1 g) :=
  List.foldl_append _ _ _ _

theorem runRows_frame (r : Int) (w : Nat) (rows : List Nat) (g : Grid) (j : Nat)
    (h : ∀ y ∈ rows, ¬(y * w ≤ j ∧ j < y * w + w)) :
    runRows r w rows g j = g j := by
  induction rows generalizing g with
  | nil => rfl
  | cons y ys ih =>
    rw [runRows_cons, ih _ fun z hz => h z (List.mem_cons_of_mem _ hz)]
    exact runRow_frame _ _ _ _ _ (h y (List.mem_cons_self _ _))

theorem range'_singleton (s : Nat) : List.range' s 1 = [s] := rfl

theorem range'_split_last (y : Nat) (hy : 1 ≤ y) :
    List.range' 1 y = List.range' 1 (y - 1) ++ [y] := by
  have h := List.range'_append_1 1 (y - 1) 1
  rw [range'_singleton] at h
  have h1 : 1 + (y - 1) = y := by omega
  rw [h1] at h
  exact h.symm

/-- After the whole row loop `1 .. n`, the cell `(y, x)` (for `1 ≤ y ≤ n`)
holds the transition of the three row-`y-1` cells of the *final* grid:
rows are filled top-down, and once row `y` is written neither it nor row
`y - 1` is touched again. -/
theorem runRows_settled (r : Int) (w n : Nat) (g : Grid) (hw : 0 < w)
    (y : Nat) (hy1 : 1 ≤ y) (hyn : y ≤ n) (x : Nat) (hx : x < w) :
    runRows r w (List.range' 1 n) g (y * w + x) =
      nextState r w (runRows r w (List.range' 1 n) g) y x := by
  have hsplit : List.range' 1 n = List.range' 1 y ++ List.range' (1 + y) (n - y) := by
    have h := List.range'_append_1 1 y (n - y)
    have h2 : n - y + y = n := by omega
    rw [h2] at h
    exact h.symm
  have hG : runRows r w (List.range' 1 n) g =
      runRows r w (List.range' (1 + y) (n - y)) (runRows r w (List.range' 1 y) g) := by
    rw [hsplit, runRows_append]
  have hGy : runRows r w (List.range' 1 y) g =
      runRow r w y (runRows r w (List.range' 1 (y - 1)) g) := by
    rw [range'_split_last y hy1, runRows_append, runRows_cons, runRows_nil]
  have hagree : ∀ j, j < (y + 1) * w →
      runRows r w (List.range' 1 n) g j = runRows r w (List.range' 1 y) g j := by
    intro j hj
    rw [hG]
    apply runRows_frame
    intro y' hy' hcontra
    have hmem := List.mem_range'_1.1 hy'
    have h1 : (y + 1) * w ≤ y' * w := Nat.mul_le_mul_right w (by omega)
    omega
  have hyx : y * w + x < (y + 1) * w := by
    have h2 : (y + 1) * w = y * w + w := by ring
    omega
  rw [hagree _ hyx, hGy,
    runRow_get r w y hw hy1 _ x hx]
  refine nextState_congr r w _ _ y x hw hx fun c hc => ?_
  have hlt : (y - 1) * w + c < y * w := by
    have h3 : (y - 1) * w + w = y * w := by
      have hy' : y - 1 + 1 = y := by omega
      calc (y - 1) * w + w = (y - 1 + 1) * w := by ring
        _ = y * w := by rw [hy']
    omega
  have hlt2 : (y - 1) * w + c < (y + 1) * w := by
    have h4 : y * w ≤ (y + 1) * w := Nat.mul_le_mul_right w (Nat.le_succ y)
    omega
  rw [hagree _ hlt2, hGy, runRow_frame _ _ _ _ _ (by omega)]

/-- `run` only writes rows `1 .. height - 1`: indices in row 0 or at or
beyond `height * width` are unchanged. -/
theorem run_frame (a : Automata) (j : Nat)
    (h : j < a.width ∨ a.height * a.width ≤ j) : (a.run).grid j = a.grid j := by
  show runRows a.rule a.width (List.range' 1 (a.height - 1)) a.grid j = a.grid j
  apply runRows_frame
  intro y hy hcontra
  have hmem := List.mem_range'_1.1 hy
  rcases h with h | h
  · have h1 : a.width ≤ y * a.width := Nat.le_mul_of_pos_left _ (by omega)
    omega
  · have h1 : (y + 1) * a.width ≤ a.height * a.width := Nat.mul_le_mul_right _ (by omega)
    have h2 : y * a.width + a.width = (y + 1) * a.width := by ring
    omega

/-- The `(run a).grid` value at `(y, x)` in explicit form, with the claim's
arithmetic pattern: used to restate `runRows_settled` over the `Automata`. -/
theorem run_grid_eq (a : Automata) (hw : 0 < a.width) (y x : Nat)
    (hy1 : 1 ≤ y) (hy : y < a.height) (hx : x < a.width) :
    (a.run).grid (y * a.width + x) = nextState a.rule a.width (a.run).grid y x :=
  runRows_settled a.rule a.width (a.height - 1) a.grid hw y hy1 (by omega) x hx

/-- The grid computed by `run` is a function of row 0 alone (on the block
of rows the loop writes). -/
theorem runRows_det (r : Int) (w : Nat) (hw : 0 < w) (n : Nat) :
    ∀ (g1 g2 : Grid), (∀ j, j < w → g1 j = g2 j) →
    ∀ j, j < (n + 1) * w →
    runRows r w (List.range' 1 n) g1 j = runRows r w (List.range' 1 n) g2 j := by
  induction n with
  | zero =>
    intro g1 g2 h j hj
    simpa using h j (by simpa using hj)
  | succ n ih =>
    intro g1 g2 h j hj
    have hsplit : List.range' 1 (n + 1) = List.range' 1 n ++ [n + 1] :=
      range'_split_last (n + 1) (by omega)
    rw [hsplit, runRows_append, runRows_append, runRows_cons, runRows_nil, runRows_cons,
      runRows_nil]
    have h2 : (n + 1 + 1) * w = (n + 1) * w + w := by ring
    by_cases hj' : j < (n + 1) * w
    · rw [runRow_frame _ _ _ _ _ (by omega), runRow_frame _ _ _ _ _ (by omega)]
      exact ih g1 g2 h j hj'
    · obtain ⟨x, hx, rfl⟩ : ∃ x, x < w ∧ j = (n + 1) * w + x :=
        ⟨j - (n + 1) * w, by omega, by omega⟩
      rw [runRow_get r w (n + 1) hw (by omega) _ x hx,
        runRow_get r w (n + 1) hw (by omega) _ x hx]
      refine nextState_congr r w _ _ (n + 1) x hw hx fun c hc => ?_
      have h3 : (n + 1 - 1) * w + c = n * w + c := by norm_num
      rw [h3]
      refine ih g1 g2 h _ ?_
      have h4 : (n + 1) * w = n * w + w := by ring
      omega

/-- Pointwise extensionality for `Automata`. -/
theorem automataExt (a b : Automata) (hw : a.width = b.width)
    (hh : a.height = b.height) (hr : a.rule = b.rule)
    (hg : ∀ j, a.grid j = b.grid j) : a = b := by
  cases a
  cases b
  simp_all
  exact funext hg

/-! ## Cell-range preservation -/

theorem store_le_one (g : Grid) (hg : ∀ i, g i ≤ 1) (i v : Nat) (hv : v ≤ 1)
    (j : Nat) : store g i v j ≤ 1 := by
  unfold store
  split
  · exact le_trans (Nat.mod_le v 256) hv
  · exact hg j

theorem writeRow_le_one (r : Int) (w y : Nat) (cols : List Nat) :
    ∀ g : Grid, (∀ i, g i ≤ 1) → ∀ i, writeRow r w y cols g i ≤ 1 := by
  induction cols with
  | nil => intro g hg i; exact hg i
  | cons c cs ih =>
    intro g hg i
    rw [writeRow_cons]
    exact ih _ (store_le_one g hg _ _ (nextState_le_one r w g y c)) i

theorem runRows_le_one (r : Int) (w : Nat) (rows : List Nat) :
    ∀ g : Grid, (∀ i, g i ≤ 1) → ∀ i, runRows r w rows g i ≤ 1 := by
  induction rows with
  | nil => intro g hg i; exact hg i
  | cons y ys ih =>
    intro g hg i
    rw [runRows_cons]
    exact ih _ (writeRow_le_one r w y _ g hg) i

theorem reset_grid (a : Automata) (i : Nat) :
    (a.reset).grid i = if i = a.width / 2 then 1 else 0 := by
  show store (fun _ => 0) (a.width / 2) 1 i = _
  unfold store
  norm_num

/-! ## Bridging the analyzer loops to their quantified readings -/

theorem isClass1_iff (g : Grid) (w h : Nat) :
    isClass1 g w h = true ↔ ∀ x < w, g ((h - 1) * w + x) = g ((h - 1) * w) := by
  unfold isClass1
  rw [List.all_eq_true]
  constructor
  · intro H x hx
    rcases Nat.eq_zero_or_pos x with rfl | hx0
    · simp
    · exact eq_of_beq (H x (List.mem_range'_1.2 ⟨hx0, by omega⟩))
  · intro H x hx
    have hm := List.mem_range'_1.1 hx
    exact beq_iff_eq.2 (H x (by omega))

theorem isClass2_iff (g : Grid) (w h : Nat) :
    isClass2 g w h = true ↔
      ∃ k, 1 ≤ k ∧ k ≤ min 50 (h - 1) ∧
        ∀ x < w, g ((h - 1) * w + x) = g ((h - 1 - k) * w + x) := by
  unfold isClass2
  rw [List.any_eq_true]
  constructor
  · rintro ⟨k, hk, hall⟩
    have hm := List.mem_range'_1.1 hk
    rw [List.all_eq_true] at hall
    exact ⟨k, hm.1, by omega,
      fun x hx => eq_of_beq (hall x (List.mem_range.2 hx))⟩
  · rintro ⟨k, hk1, hk2, hall⟩
    refine ⟨k, List.mem_range'_1.2 ⟨hk1, by omega⟩, List.all_eq_true.2 ?_⟩
    exact fun x hx => beq_iff_eq.2 (hall x (List.mem_range.1 hx))

theorem class4_contains_iff (r : Int) :
    CLASS_4_RULES.contains r = true ↔ r ∈ CLASS_4_RULES := by
  unfold List.contains
  exact List.elem_iff

theorem mem_ite_singleton {c : Prop} [Decidable c] {s t : String}
    (h : t ∈ if c then [s] else ([] : List String)) : t = s := by
  split at h
  · simpa using h
  · cases h

theorem none_not_mem_raw (g : Grid) (w h : Nat) :
    "None" ∉ rawSymmetries g w h := by
  intro hmem
  unfold rawSymmetries at hmem
  simp only [List.mem_append] at hmem
  rcases hmem with (hm | hm) | hm
  · exact absurd (mem_ite_singleton hm) (by decide)
  · exact absurd (mem_ite_singleton hm) (by decide)
  · split at hm
    · simp only [List.mem_append] at hm
      rcases hm with hm | hm
      · exact absurd (mem_ite_singleton hm) (by decide)
      · exact absurd (mem_ite_singleton hm) (by decide)
    · cases hm

theorem ite_singleton_eq_nil {c : Prop} [Decidable c] {s : String} :
    ((if c then [s] else ([] : List String)) = []) ↔ ¬c := by
  split <;> simp_all

theorem raw_eq_nil_iff (g : Grid) (w h : Nat) :
    rawSymmetries g w h = [] ↔
      (checkVerticalSymmetry g w h = false ∧
       checkHorizontalSymmetry g w h = false ∧
       (w = h → checkDiagonalSymmetry g w = false ∧
                checkAntiDiagonalSymmetry g w = false)) := by
  unfold rawSymmetries
  simp only [List.append_eq_nil, ite_singleton_eq_nil, Bool.not_eq_true]
  constructor
  · rintro ⟨⟨hv, hh'⟩, hd⟩
    refine ⟨hv, hh', fun hwh => ?_⟩
    subst hwh
    split at hd
    · simp only [List.append_eq_nil, ite_singleton_eq_nil, Bool.not_eq_true] at hd
      exact hd
    · simp_all
  · rintro ⟨hv, hh', hd⟩
    refine ⟨⟨hv, hh'⟩, ?_⟩
    split
    · rename_i hwh
      have : w = h := by simpa using hwh
      simp only [List.append_eq_nil, ite_singleton_eq_nil, Bool.not_eq_true]
      exact hd this
    · rfl

theorem symmetriesOf_ne_nil (g : Grid) (w h : Nat) : symmetriesOf g w h ≠ [] := by
  show (if (rawSymmetries g w h).isEmpty then ["None"] else rawSymmetries g w h) ≠ []
  split
  · simp
  · rename_i hne
    simpa [List.isEmpty_iff] using hne

theorem symmetriesOf_of_ne (g : Grid) (w h : Nat)
    (hne : rawSymmetries g w h ≠ []) :
    symmetriesOf g w h = rawSymmetries g w h := by
  show (if (rawSymmetries g w h).isEmpty then ["None"] else rawSymmetries g w h) = _
  rw [if_neg]
  simpa [List.isEmpty_iff] using hne

theorem symmetriesOf_none_iff (g : Grid) (w h : Nat) :
    symmetriesOf g w h = ["None"] ↔ rawSymmetries g w h = [] := by
  show (if (rawSymmetries g w h).isEmpty then ["None"] else rawSymmetries g w h) = ["None"] ↔ _
  split
  · rename_i he
    simp only [List.isEmpty_iff] at he
    simp [he]
  · rename_i he
    simp only [List.isEmpty_iff] at he
    constructor
    · intro hr
      exact absurd (hr ▸ List.mem_cons_self "None" []) (none_not_mem_raw g w h)
    · intro hr
      exact absurd hr he

/-! ## The rule-0 grid after reset + run -/

/-- Closed form of the grid after `reset()` then `run()` under rule 0:
rows `1 .. height-1` are all zero, row 0 keeps the single centered seed. -/
def seedRunGrid (w h : Nat) : Grid :=
  fun i => if w ≤ i ∧ i < h * w then 0 else if i = w / 2 then 1 else 0

theorem run_rule0_grid (w h : Nat) (hw : 0 < w) (i : Nat) :
    (((mkAutomata w h).reset).run).grid i = seedRunGrid w h i := by
  have hG : ∀ j, ((mkAutomata w h).reset).grid j = if j = w / 2 then 1 else 0 :=
    fun j => reset_grid (mkAutomata w h) j
  unfold seedRunGrid
  by_cases h1 : w ≤ i ∧ i < h * w
  · rw [if_pos h1]
    obtain ⟨x, y, hx, hy1, hyh, rfl⟩ : ∃ x y, x < w ∧ 1 ≤ y ∧ y < h ∧ i = y * w + x := by
      refine ⟨i % w, i / w, Nat.mod_lt _ hw, ?_, ?_, ?_⟩
      · exact (Nat.one_le_div_iff hw).2 h1.1
      · exact (Nat.div_lt_iff_lt_mul hw).2 (by omega)
      · rw [Nat.mul_comm]
        exact (Nat.div_add_mod i w).symm
    exact (run_grid_eq ((mkAutomata w h).reset) hw y x hy1 hyh hx).trans
      (nextState_zero_rule _ _ _ _)
  · rw [if_neg h1]
    rw [run_frame ((mkAutomata w h).reset) i (by show i < w ∨ h * w ≤ i; omega)]
    exact hG i

theorem isClass1_seedRun (w h : Nat) (hw : 0 < w) (hh : 2 ≤ h) :
    isClass1 (seedRunGrid w h) w h = true := by
  have key : ∀ x, x < w → seedRunGrid w h ((h - 1) * w + x) = 0 := by
    intro x hx
    unfold seedRunGrid
    rw [if_pos]
    constructor
    · have h1 : w ≤ (h - 1) * w := Nat.le_mul_of_pos_left w (by omega)
      omega
    · have h2 : (h - 1) * w + w = h * w := by
        have h3 : h - 1 + 1 = h := by omega
        calc (h - 1) * w + w = (h - 1 + 1) * w := by ring
          _ = h * w := by rw [h3]
      omega
  refine (isClass1_iff _ _ _).2 fun x hx => ?_
  have k0 := key 0 hw
  rw [Nat.add_zero] at k0
  rw [key x hx, k0]

theorem checkV_seedRun (w h : Nat) (hodd : w % 2 = 1) :
    checkVerticalSymmetry (seedRunGrid w h) w h = true := by
  unfold checkVerticalSymmetry
  rw [List.all_eq_true]
  intro y hy
  rw [List.all_eq_true]
  intro x hx
  have hyh := List.mem_range.1 hy
  have hxr := List.mem_range.1 hx
  have hw : 0 < w := by omega
  have hxw : x < w := by omega
  have hmw : w - 1 - x < w := by omega
  apply beq_iff_eq.2
  rcases Nat.eq_zero_or_pos y with rfl | hy1
  · simp only [Nat.zero_mul, Nat.zero_add]
    unfold seedRunGrid
    have hn1 : ¬(w ≤ x ∧ x < h * w) := by omega
    have hn2 : ¬(w ≤ w - 1 - x ∧ w - 1 - x < h * w) := by omega
    rw [if_neg hn1, if_neg hn2]
    have hiff : x = w / 2 ↔ w - 1 - x = w / 2 := by omega
    by_cases hx2 : x = w / 2
    · rw [if_pos hx2, if_pos (hiff.1 hx2)]
    · rw [if_neg hx2, if_neg fun hc => hx2 (hiff.2 hc)]
  · have hband : ∀ c, c < w → seedRunGrid w h (y * w + c) = 0 := by
      intro c hc
      unfold seedRunGrid
      rw [if_pos]
      constructor
      · have h1 : w ≤ y * w := Nat.le_mul_of_pos_left w hy1
        omega
      · have h2 : (y + 1) * w ≤ h * w := Nat.mul_le_mul_right w (by omega)
        have h3 : y * w + w = (y + 1) * w := by ring
        omega
    rw [hband x hxw, hband _ hmw]

theorem checkH_seedRun_false (w h : Nat) (hw : 0 < w) (hh : 2 ≤ h) :
    checkHorizontalSymmetry (seedRunGrid w h) w h = false := by
  apply Bool.eq_false_iff.2
  intro htrue
  unfold checkHorizontalSymmetry at htrue
  rw [List.all_eq_true] at htrue
  have h0 := htrue 0 (List.mem_range.2 (by omega))
  rw [List.all_eq_true] at h0
  have hx := h0 (w / 2) (List.mem_range.2 (by omega))
  have e1 : seedRunGrid w h (0 * w + w / 2) = 1 := by
    unfold seedRunGrid
    have hn1 : ¬(w ≤ w / 2 ∧ w / 2 < h * w) := by omega
    rw [Nat.zero_mul, Nat.zero_add, if_neg hn1, if_pos rfl]
  have e2 : seedRunGrid w h ((h - 1 - 0) * w + w / 2) = 0 := by
    unfold seedRunGrid
    rw [if_pos]
    constructor
    · have h1 : w ≤ (h - 1 - 0) * w := Nat.le_mul_of_pos_left w (by omega)
      omega
    · have h2 : (h - 1 - 0) * w + w = (h - 1 - 0 + 1) * w := by ring
      have h3 : (h - 1 - 0 + 1) * w ≤ h * w := Nat.mul_le_mul_right w (by omega)
      omega
  rw [e1, e2] at hx
  simp at hx

/-- The bitwise neighborhood pattern `(l << 2) | (c << 1) | r` agrees with
the arithmetic reading `l*4 + c*2 + r` on single-bit cell values. -/
theorem pattern_arith (l c r : Nat) (hl : l ≤ 1) (hc : c ≤ 1) (hr : r ≤ 1) :
    (l <<< 2) ||| (c <<< 1) ||| r = l * 4 + c * 2 + r := by
  interval_cases l <;> interval_cases c <;> interval_cases r <;> rfl

theorem nextState_eq (r : Int) (w : Nat) (g : Grid) (y x : Nat) :
    nextState r w g y x =
      jsAnd1 (jsShr r ((g ((y - 1) * w + (x + w - 1) % w) <<< 2) |||
        (g ((y - 1) * w + x) <<< 1) ||| g ((y - 1) * w + (x + 1) % w))) := rfl

/-! ## The claims -/

/-- C1: for every rule and all `width, height > 0`, after `run()` every
cell in rows `1 .. height-1` satisfies
`grid[y][x] = (rule >> (left*4 + center*2 + right)) & 1`, where `left`,
`center`, `right` are read from the already-computed predecessor row of
the final grid, with horizontal toroidal wrap (the source's
`(x - 1 + width) % width` is `(x + width - 1) % width` over `Nat`).
Cells hold single bits (the engine invariant), stated here as a
hypothesis on the pre-run grid's row 0. -/
theorem C1_run_cell_formula (a : Automata) (hw : 0 < a.width) (hh : 0 < a.height)
    (h0 : ∀ x, x < a.width → a.grid x ≤ 1) (y x : Nat)
    (hy1 : 1 ≤ y) (hy : y < a.height) (hx : x < a.width) :
    (a.run).grid (y * a.width + x) =
      jsAnd1 (jsShr a.rule
        ((a.run).grid ((y - 1) * a.width + (x + a.width - 1) % a.width) * 4 +
         (a.run).grid ((y - 1) * a.width + x) * 2 +
         (a.run).grid ((y - 1) * a.width + (x + 1) % a.width))) := by
  rw [run_grid_eq a hw y x hy1 hy hx, nextState_eq]
  have hcells : ∀ c, c < a.width → (a.run).grid ((y - 1) * a.width + c) ≤ 1 := by
    intro c hc
    rcases Nat.eq_zero_or_pos (y - 1) with hy0 | hy1'
    · rw [hy0, Nat.zero_mul, Nat.zero_add, run_frame a c (Or.inl hc)]
      exact h0 c hc
    · rw [run_grid_eq a hw (y - 1) c hy1' (by omega) hc]
      exact nextState_le_one _ _ _ _ _
  rw [pattern_arith _ _ _ (hcells _ (Nat.mod_lt _ hw)) (hcells _ hx)
    (hcells _ (Nat.mod_lt _ hw))]

/-- Witness for C1 at `width = 1`, `height = 2`, `y = 1`, `x = 0`. -/
theorem C1_run_cell_formula_witness :
    (0 < (mkAutomata 1 2).width ∧ 0 < (mkAutomata 1 2).height ∧
      (∀ x, x < (mkAutomata 1 2).width → (mkAutomata 1 2).grid x ≤ 1) ∧
      1 ≤ 1 ∧ 1 < (mkAutomata 1 2).height ∧ 0 < (mkAutomata 1 2).width) ∧
    ((mkAutomata 1 2).run).grid (1 * (mkAutomata 1 2).width + 0) =
      jsAnd1 (jsShr (mkAutomata 1 2).rule
        (((mkAutomata 1 2).run).grid
            ((1 - 1) * (mkAutomata 1 2).width + (0 + (mkAutomata 1 2).width - 1) % (mkAutomata 1 2).width) * 4 +
         ((mkAutomata 1 2).run).grid ((1 - 1) * (mkAutomata 1 2).width + 0) * 2 +
         ((mkAutomata 1 2).run).grid
            ((1 - 1) * (mkAutomata 1 2).width + (0 + 1) % (mkAutomata 1 2).width))) :=
  ⟨⟨by decide, by decide, fun x hx => by have hx1 : x < 1 := hx; interval_cases x; decide,
    le_refl 1, by decide, by decide⟩,
    C1_run_cell_formula (mkAutomata 1 2) (by decide) (by decide)
      (fun x hx => by have hx1 : x < 1 := hx; interval_cases x; decide) 1 0 (le_refl 1) (by decide) (by decide)⟩

/-- C2: for a rule outside the Class-4 set, `analyzeRule` reports
Class 1 when the last row is uniform, else Class 2 when the last row
recurs within the preceding `min 50 (height-1)` rows, else the Class 3
default. -/
theorem C2_classification (rule : Int) (a : Automata)
    (hr : rule ∉ CLASS_4_RULES) :
    ((∀ x, x < a.width →
        a.grid ((a.height - 1) * a.width + x) = a.grid ((a.height - 1) * a.width)) →
      (analyzeRule rule a).wolframClass = "Class 1 (Uniform)") ∧
    (¬(∀ x, x < a.width →
        a.grid ((a.height - 1) * a.width + x) = a.grid ((a.height - 1) * a.width)) →
      (∃ k, 1 ≤ k ∧ k ≤ min 50 (a.height - 1) ∧
        ∀ x, x < a.width →
          a.grid ((a.height - 1) * a.width + x) = a.grid ((a.height - 1 - k) * a.width + x)) →
      (analyzeRule rule a).wolframClass = "Class 2 (Periodic/Stable)") ∧
    (¬(∀ x, x < a.width →
        a.grid ((a.height - 1) * a.width + x) = a.grid ((a.height - 1) * a.width)) →
      ¬(∃ k, 1 ≤ k ∧ k ≤ min 50 (a.height - 1) ∧
        ∀ x, x < a.width →
          a.grid ((a.height - 1) * a.width + x) = a.grid ((a.height - 1 - k) * a.width + x)) →
      (analyzeRule rule a).wolframClass = "Class 3 (Chaotic/Aperiodic)") := by
  have hcont : ¬(CLASS_4_RULES.contains rule = true) :=
    fun hc => hr ((class4_contains_iff rule).1 hc)
  refine ⟨fun h1 => ?_, fun h1 h2 => ?_, fun h1 h2 => ?_⟩
  · show wolframClassOf rule a.grid a.width a.height = _
    unfold wolframClassOf
    rw [if_neg hcont, if_pos ((isClass1_iff _ _ _).2 h1)]
  · show wolframClassOf rule a.grid a.width a.height = _
    unfold wolframClassOf
    rw [if_neg hcont, if_neg fun hc => h1 ((isClass1_iff _ _ _).1 hc),
      if_pos ((isClass2_iff _ _ _).2 h2)]
  · show wolframClassOf rule a.grid a.width a.height = _
    unfold wolframClassOf
    rw [if_neg hcont, if_neg fun hc => h1 ((isClass1_iff _ _ _).1 hc),
      if_neg fun hc => h2 ((isClass2_iff _ _ _).1 hc)]

/-- Witness for C2 at rule 30 on the 1×1 seeded grid (uniform last row). -/
theorem C2_classification_witness :
    ((30 : Int) ∉ CLASS_4_RULES) ∧
    (((∀ x, x < (mkAutomata 1 1).width →
        (mkAutomata 1 1).grid (((mkAutomata 1 1).height - 1) * (mkAutomata 1 1).width + x) =
          (mkAutomata 1 1).grid (((mkAutomata 1 1).height - 1) * (mkAutomata 1 1).width)) →
      (analyzeRule 30 (mkAutomata 1 1)).wolframClass = "Class 1 (Uniform)") ∧
    (¬(∀ x, x < (mkAutomata 1 1).width →
        (mkAutomata 1 1).grid (((mkAutomata 1 1).height - 1) * (mkAutomata 1 1).width + x) =
          (mkAutomata 1 1).grid (((mkAutomata 1 1).height - 1) * (mkAutomata 1 1).width)) →
      (∃ k, 1 ≤ k ∧ k ≤ min 50 ((mkAutomata 1 1).height - 1) ∧
        ∀ x, x < (mkAutomata 1 1).width →
          (mkAutomata 1 1).grid (((mkAutomata 1 1).height - 1) * (mkAutomata 1 1).width + x) =
            (mkAutomata 1 1).grid (((mkAutomata 1 1).height - 1 - k) * (mkAutomata 1 1).width + x)) →
      (analyzeRule 30 (mkAutomata 1 1)).wolframClass = "Class 2 (Periodic/Stable)") ∧
    (¬(∀ x, x < (mkAutomata 1 1).width →
        (mkAutomata 1 1).grid (((mkAutomata 1 1).height - 1) * (mkAutomata 1 1).width + x) =
          (mkAutomata 1 1).grid (((mkAutomata 1 1).height - 1) * (mkAutomata 1 1).width)) →
      ¬(∃ k, 1 ≤ k ∧ k ≤ min 50 ((mkAutomata 1 1).height - 1) ∧
        ∀ x, x < (mkAutomata 1 1).width →
          (mkAutomata 1 1).grid (((mkAutomata 1 1).height - 1) * (mkAutomata 1 1).width + x) =
            (mkAutomata 1 1).grid (((mkAutomata 1 1).height - 1 - k) * (mkAutomata 1 1).width + x)) →
      (analyzeRule 30 (mkAutomata 1 1)).wolframClass = "Class 3 (Chaotic/Aperiodic)")) :=
  ⟨by decide, C2_classification 30 (mkAutomata 1 1) (by decide)⟩

/-- C3: membership in the static `CLASS_4_RULES` set forces the
"Class 4 (Complex)" label regardless of grid contents. -/
theorem C3_class4_static (rule : Int) (a : Automata) (hr : rule ∈ CLASS_4_RULES) :
    (analyzeRule rule a).wolframClass = "Class 4 (Complex)" := by
  show wolframClassOf rule a.grid a.width a.height = _
  unfold wolframClassOf
  rw [if_pos ((class4_contains_iff rule).2 hr)]

/-- Witness for C3: rule 110 on a freshly run 4×3 grid. -/
theorem C3_class4_static_witness :
    (110 : Int) ∈ CLASS_4_RULES ∧
    (analyzeRule 110 (((mkAutomata 4 3).setRule 110).run)).wolframClass =
      "Class 4 (Complex)" :=
  ⟨by decide, C3_class4_static 110 (((mkAutomata 4 3).setRule 110).run) (by decide)⟩

/-- C4 counterexample: on the 2×2 grid, rule 0 after `reset()` + `run()`
yields `symmetries = ["Anti-Diagonal (TR-BL)"]` — the vertical check fails
on the seed row (the single live cell at column `width/2 = 1` has no
mirror partner for even width) and the horizontal check fails because the
seed row differs from the all-zero last row.  So the claimed conjunction
is false. -/
theorem C4_counterexample :
    ¬((analyzeRule 0 (((mkAutomata 2 2).reset).run)).wolframClass = "Class 1 (Uniform)" ∧
      "Vertical (Left-Right)" ∈ (analyzeRule 0 (((mkAutomata 2 2).reset).run)).symmetries ∧
      "Horizontal (Top-Bottom)" ∈ (analyzeRule 0 (((mkAutomata 2 2).reset).run)).symmetries) := by
  intro h
  have hs : (analyzeRule 0 (((mkAutomata 2 2).reset).run)).symmetries =
      ["Anti-Diagonal (TR-BL)"] := by decide
  have hv := h.2.1
  rw [hs] at hv
  exact absurd hv (by decide)

/-- C4 (amended): for rule 0, odd width and height ≥ 2, `reset()` then
`run()` then `analyzeRule(0, ·)` returns "Class 1 (Uniform)" and the
symmetries include "Vertical (Left-Right)"; "Horizontal (Top-Bottom)" is
absent, since the full-grid scan compares the seeded row 0 with the
all-zero last row. -/
theorem C4_amended_rule0 (w h : Nat) (hodd : w % 2 = 1) (hh : 2 ≤ h) :
    (analyzeRule 0 (((mkAutomata w h).reset).run)).wolframClass = "Class 1 (Uniform)" ∧
    "Vertical (Left-Right)" ∈ (analyzeRule 0 (((mkAutomata w h).reset).run)).symmetries ∧
    "Horizontal (Top-Bottom)" ∉ (analyzeRule 0 (((mkAutomata w h).reset).run)).symmetries := by
  have hw : 0 < w := by omega
  have hgrid : (((mkAutomata w h).reset).run).grid = seedRunGrid w h :=
    funext (run_rule0_grid w h hw)
  have hwid : (((mkAutomata w h).reset).run).width = w := rfl
  have hhei : (((mkAutomata w h).reset).run).height = h := rfl
  have hv := checkV_seedRun w h hodd
  have hH := checkH_seedRun_false w h hw hh
  have hne : rawSymmetries (seedRunGrid w h) w h ≠ [] := by
    intro hnil
    rcases (raw_eq_nil_iff _ _ _).1 hnil with ⟨h1, _, _⟩
    rw [hv] at h1
    simp at h1
  refine ⟨?_, ?_, ?_⟩
  · show wolframClassOf 0 (((mkAutomata w h).reset).run).grid
      (((mkAutomata w h).reset).run).width (((mkAutomata w h).reset).run).height = _
    rw [hgrid, hwid, hhei]
    unfold wolframClassOf
    rw [if_neg (by decide : ¬(CLASS_4_RULES.contains (0 : Int) = true)),
      if_pos (isClass1_seedRun w h hw hh)]
  · show "Vertical (Left-Right)" ∈ symmetriesOf (((mkAutomata w h).reset).run).grid
      (((mkAutomata w h).reset).run).width (((mkAutomata w h).reset).run).height
    rw [hgrid, hwid, hhei, symmetriesOf_of_ne _ _ _ hne]
    unfold rawSymmetries
    rw [hv]
    simp
  · show "Horizontal (Top-Bottom)" ∉ symmetriesOf (((mkAutomata w h).reset).run).grid
      (((mkAutomata w h).reset).run).width (((mkAutomata w h).reset).run).height
    rw [hgrid, hwid, hhei, symmetriesOf_of_ne _ _ _ hne]
    intro hmem
    unfold rawSymmetries at hmem
    rw [hH] at hmem
    simp only [List.mem_append] at hmem
    rcases hmem with (hm | hm) | hm
    · exact absurd (mem_ite_singleton hm) (by decide)
    · simp at hm
    · split at hm
      · simp only [List.mem_append] at hm
        rcases hm with hm | hm
        · exact absurd (mem_ite_singleton hm) (by decide)
        · exact absurd (mem_ite_singleton hm) (by decide)
      · cases hm

/-- Witness for the amended C4 at `width = 3`, `height = 2`. -/
theorem C4_amended_rule0_witness :
    (3 % 2 = 1 ∧ 2 ≤ 2) ∧
    ((analyzeRule 0 (((mkAutomata 3 2).reset).run)).wolframClass = "Class 1 (Uniform)" ∧
    "Vertical (Left-Right)" ∈ (analyzeRule 0 (((mkAutomata 3 2).reset).run)).symmetries ∧
    "Horizontal (Top-Bottom)" ∉ (analyzeRule 0 (((mkAutomata 3 2).reset).run)).symmetries) :=
  ⟨⟨by decide, by decide⟩, C4_amended_rule0 3 2 (by decide) (by decide)⟩

/-- C5: `reset()` zeroes the buffer and seeds exactly one live cell at
column `width/2` of row 0; it is idempotent; and for any rule in [0,255]
the seed row survives `run()` unchanged: exactly one live cell at
`width/2`, zero elsewhere in row 0. -/
theorem C5_reset_seed (a : Automata) (r : Int) (hw : 0 < a.width) (hh : 0 < a.height)
    (hr0 : 0 ≤ r) (hr1 : r ≤ 255) :
    (∀ i, ((a.setRule r).reset).grid i = if i = a.width / 2 then 1 else 0) ∧
    ((a.setRule r).reset.reset = (a.setRule r).reset) ∧
    (∀ x, x < a.width →
      (((a.setRule r).reset).run).grid x = if x = a.width / 2 then 1 else 0) := by
  refine ⟨fun i => reset_grid _ i, rfl, fun x hx => ?_⟩
  rw [run_frame ((a.setRule r).reset) x (Or.inl hx)]
  exact reset_grid _ x

/-- Witness for C5 on a 4×3 engine with rule 110. -/
theorem C5_reset_seed_witness :
    (0 < (mkAutomata 4 3).width ∧ 0 < (mkAutomata 4 3).height ∧
      (0 : Int) ≤ 110 ∧ (110 : Int) ≤ 255) ∧
    ((∀ i, (((mkAutomata 4 3).setRule 110).reset).grid i =
        if i = (mkAutomata 4 3).width / 2 then 1 else 0) ∧
    (((mkAutomata 4 3).setRule 110).reset.reset = ((mkAutomata 4 3).setRule 110).reset) ∧
    (∀ x, x < (mkAutomata 4 3).width →
      ((((mkAutomata 4 3).setRule 110).reset).run).grid x =
        if x = (mkAutomata 4 3).width / 2 then 1 else 0)) :=
  ⟨⟨by decide, by decide, by decide, by decide⟩,
    C5_reset_seed (mkAutomata 4 3) 110 (by decide) (by decide) (by decide) (by decide)⟩

/-- C6: `run()` never writes row 0 — for every prior grid state and every
rule, each cell `grid[0][x]` is unchanged by `run()`. -/
theorem C6_run_preserves_row0 (a : Automata) (hw : 0 < a.width) (hh : 0 < a.height)
    (x : Nat) (hx : x < a.width) : (a.run).grid x = a.grid x :=
  run_frame a x (Or.inl hx)

/-- Witness for C6: a 3×2 engine with rule 110 set, cell `(0, 1)`. -/
theorem C6_run_preserves_row0_witness :
    (0 < ((mkAutomata 3 2).setRule 110).width ∧ 0 < ((mkAutomata 3 2).setRule 110).height ∧
      1 < ((mkAutomata 3 2).setRule 110).width) ∧
    (((mkAutomata 3 2).setRule 110).run).grid 1 = ((mkAutomata 3 2).setRule 110).grid 1 :=
  ⟨⟨by decide, by decide, by decide⟩,
    C6_run_preserves_row0 ((mkAutomata 3 2).setRule 110) (by decide) (by decide) 1 (by decide)⟩

/-- C7: `analyzeRule` always returns a non-empty symmetries sequence; it
is exactly `["None"]` precisely when none of the four checks passes (the
diagonal pair only being consulted on square grids), the sentinel "None"
never occurs among the check labels, and when some check passes the
result is exactly the passing labels in the fixed source order. -/
theorem C7_symmetries_contract (rule : Int) (a : Automata) :
    (analyzeRule rule a).symmetries ≠ [] ∧
    ((analyzeRule rule a).symmetries = ["None"] ↔
      (checkVerticalSymmetry a.grid a.width a.height = false ∧
       checkHorizontalSymmetry a.grid a.width a.height = false ∧
       (a.width = a.height → checkDiagonalSymmetry a.grid a.width = false ∧
          checkAntiDiagonalSymmetry a.grid a.width = false))) ∧
    "None" ∉ rawSymmetries a.grid a.width a.height ∧
    (rawSymmetries a.grid a.width a.height ≠ [] →
      (analyzeRule rule a).symmetries = rawSymmetries a.grid a.width a.height) :=
  ⟨symmetriesOf_ne_nil _ _ _,
    (symmetriesOf_none_iff _ _ _).trans (raw_eq_nil_iff _ _ _),
    none_not_mem_raw _ _ _,
    symmetriesOf_of_ne _ _ _⟩

/-- C8: every cell is 0 or 1 after every sequence of `setRule`, `reset`,
`run` calls on a constructed engine — including rules outside [0,255] —
and the written value `(rule >> pattern) & 1` is always a single bit. -/
theorem C8_cells_binary (w h : Nat) (hw : 0 < w) (hh : 0 < h) (ops : List Op)
    (i : Nat) (hi : i < w * h) :
    (runOps (mkAutomata w h) ops).grid i ≤ 1 ∧
    ∀ (r : Int) (p : Nat), jsAnd1 (jsShr r p) ≤ 1 := by
  refine ⟨?_, fun r p => jsAnd1_le_one _⟩
  have base : ∀ j, (mkAutomata w h).grid j ≤ 1 := by
    intro j
    unfold mkAutomata
    rw [reset_grid]
    split <;> norm_num
  have inv : ∀ (l : List Op) (b : Automata),
      (∀ j, b.grid j ≤ 1) → ∀ j, (runOps b l).grid j ≤ 1 := by
    intro l
    induction l with
    | nil => intro b hb j; exact hb j
    | cons op rest ih =>
      intro b hb j
      show (runOps (applyOp b op) rest).grid j ≤ 1
      apply ih
      intro j'
      cases op with
      | setRule r => exact hb j'
      | reset =>
        rw [show (applyOp b Op.reset) = b.reset from rfl, reset_grid]
        split <;> norm_num
      | run => exact runRows_le_one b.rule b.width _ b.grid hb j'
  exact inv ops (mkAutomata w h) base i

/-- Witness for C8: a 2×2 engine, an out-of-range `setRule` followed by
`run`, `reset`, `run`; cell 1. -/
theorem C8_cells_binary_witness :
    (0 < 2 ∧ 0 < 2 ∧ 1 < 2 * 2) ∧
    ((runOps (mkAutomata 2 2) [Op.setRule 999, Op.run, Op.reset, Op.run]).grid 1 ≤ 1 ∧
    ∀ (r : Int) (p : Nat), jsAnd1 (jsShr r p) ≤ 1) :=
  ⟨⟨by decide, by decide, by decide⟩,
    C8_cells_binary 2 2 (by decide) (by decide) [Op.setRule 999, Op.run, Op.reset, Op.run]
      1 (by decide)⟩

/-- C9: `run` is idempotent — running twice leaves the engine exactly as
after one `run`, because the second pass recomputes every row from the
unchanged row 0. -/
theorem C9_run_idempotent (a : Automata) (hw : 0 < a.width) (hh : 0 < a.height) :
    a.run.run = a.run := by
  apply automataExt
  · rfl
  · rfl
  · rfl
  intro j
  show runRows a.rule a.width (List.range' 1 (a.height - 1)) (a.run).grid j = (a.run).grid j
  by_cases hj : j < (a.height - 1 + 1) * a.width
  · rw [runRows_det a.rule a.width hw (a.height - 1) (a.run).grid a.grid
      (fun j' hj' => run_frame a j' (Or.inl hj')) j hj]
    rfl
  · apply runRows_frame
    intro y hy hcontra
    have hmem := List.mem_range'_1.1 hy
    have h1 : (y + 1) * a.width ≤ (a.height - 1 + 1) * a.width :=
      Nat.mul_le_mul_right _ (by omega)
    have h2 : y * a.width + a.width = (y + 1) * a.width := by ring
    omega

/-- Witness for C9: a 2×3 engine with rule 30. -/
theorem C9_run_idempotent_witness :
    (0 < ((mkAutomata 2 3).setRule 30).width ∧ 0 < ((mkAutomata 2 3).setRule 30).height) ∧
    ((mkAutomata 2 3).setRule 30).run.run = ((mkAutomata 2 3).setRule 30).run :=
  ⟨⟨by decide, by decide⟩,
    C9_run_idempotent ((mkAutomata 2 3).setRule 30) (by decide) (by decide)⟩

/-- C10: with `height = 1` the row loop of `run()` has no iterations, so
`run` is the identity on the engine; after `reset` the grid still holds
exactly the single seed at column `width/2`. -/
theorem C10_run_noop_height_one (a : Automata) (hw : 0 < a.width) (h1 : a.height = 1) :
    a.run = a ∧ ∀ i, ((a.reset).run).grid i = if i = a.width / 2 then 1 else 0 := by
  have hnoop : ∀ b : Automata, b.height = 1 → b.run = b := by
    intro b hb
    apply automataExt
    · rfl
    · rfl
    · rfl
    intro j
    show runRows b.rule b.width (List.range' 1 (b.height - 1)) b.grid j = b.grid j
    rw [hb]
    rfl
  refine ⟨hnoop a h1, fun i => ?_⟩
  rw [hnoop (a.reset) h1]
  exact reset_grid a i

/-- Witness for C10 on a 5×1 engine. -/
theorem C10_run_noop_height_one_witness :
    (0 < (mkAutomata 5 1).width ∧ (mkAutomata 5 1).height = 1) ∧
    ((mkAutomata 5 1).run = mkAutomata 5 1 ∧
      ∀ i, (((mkAutomata 5 1).reset).run).grid i =
        if i = (mkAutomata 5 1).width / 2 then 1 else 0) :=
  ⟨⟨by decide, by decide⟩, C10_run_noop_height_one (mkAutomata 5 1) (by decide) rfl⟩
